import Mathlib

/-
Verification development for the nsql-cli credential broker
(src/lib/config.js and src/lib/oauth2.js).

Modelling conventions:
- JavaScript strings are modelled as lists of bytes, their UTF-8 code
  units (`Bytes` below).  All string literals appearing in the source are
  ASCII, so each character is one byte.
- JavaScript null/undefined are modelled with Option; JS truthiness of a
  string is "present and non-empty", of a number "present and non-zero".
- Node's crypto library is external to the repository; the AES-256-CBC
  block primitive is modelled as an abstract block cipher (a keyed
  permutation of 16-byte blocks), while the CBC chaining, PKCS#7 padding,
  hex transport encoding and the iv:cipher framing that the repository's
  encrypt/decrypt functions perform are embedded concretely.
- Fallible code returns Except; randomness (IVs, PKCE random bytes) is
  passed in explicitly as an argument.
-/

namespace NsqlCli

/-- Byte strings: JS strings viewed as their UTF-8 bytes. -/
abbrev Bytes := List Nat

/-- Embed an ASCII Lean string literal as a byte string. -/
def jstr (s : String) : Bytes := s.data.map Char.toNat

/-- Well-formed byte string: every element is a byte. -/
def Wf (l : Bytes) : Prop := ∀ b ∈ l, b < 256

instance (l : Bytes) : Decidable (Wf l) := List.decidableBAll _ l

/-- The byte of the ASCII colon separator used by encrypt/decrypt. -/
def colon : Nat := 58

/-- The byte of the ASCII single quote (U+0027). -/
def squote : Nat := 39

/-- JS truthiness of an optional string: set and non-empty. -/
def truthyS : Option Bytes → Bool
  | none => false
  | some s => decide (s ≠ [])

-- ---------------------------------------------------------------------------
-- Hex codec (Node Buffer toString('hex') / Buffer.from(_, 'hex'))
-- ---------------------------------------------------------------------------

/-- Lower-case hex digit of a nibble, as Node's toString('hex') emits. -/
def hexDigit (n : Nat) : Nat := if n < 10 then 48 + n else 87 + n

/-- Hex encoding of a byte string (two lower-case digits per byte). -/
def hexEncode (l : Bytes) : Bytes :=
  l.flatMap fun b => [hexDigit (b / 16), hexDigit (b % 16)]

/-- Value of a hex digit character, accepting both cases as Node does. -/
def hexVal (c : Nat) : Option Nat :=
  if 48 ≤ c ∧ c ≤ 57 then some (c - 48)
  else if 97 ≤ c ∧ c ≤ 102 then some (c - 87)
  else if 65 ≤ c ∧ c ≤ 70 then some (c - 55)
  else none

/-- Hex decoding with Node Buffer.from(_, 'hex') semantics: decode byte
pairs from the left and stop at the first character pair that is not two
hex digits (a trailing lone digit is dropped). -/
def hexDecodeNode : Bytes → Bytes
  | c1 :: c2 :: rest =>
    match hexVal c1, hexVal c2 with
    | some h, some lo => (16 * h + lo) :: hexDecodeNode rest
    | _, _ => []
  | _ => []

-- ---------------------------------------------------------------------------
-- AES-256-CBC model: abstract keyed block permutation + CBC + PKCS#7
-- (Node crypto's createCipheriv / createDecipheriv with 'aes-256-cbc')
-- ---------------------------------------------------------------------------

/-- Abstract model of the keyed AES-256 block primitive used through
Node's crypto library: a permutation of 16-byte blocks.  The key is baked
into the structure (the repository always uses the single machine-local
key read from the key file). -/
structure BlockCipher where
  encB : Bytes → Bytes
  decB : Bytes → Bytes
  enc_len : ∀ b, b.length = 16 → (encB b).length = 16
  enc_wf : ∀ b, b.length = 16 → Wf b → Wf (encB b)
  dec_enc : ∀ b, b.length = 16 → Wf b → decB (encB b) = b

/-- Byte-wise XOR of two equal-length blocks. -/
def xorB (a b : Bytes) : Bytes := List.zipWith (· ^^^ ·) a b

/-- CBC encryption over a list of 16-byte blocks, chaining from prev. -/
def cbcEncBlocks (C : BlockCipher) : Bytes → List Bytes → List Bytes
  | _, [] => []
  | prev, m :: ms => let c := C.encB (xorB prev m); c :: cbcEncBlocks C c ms

/-- CBC decryption over a list of 16-byte blocks, chaining from prev. -/
def cbcDecBlocks (C : BlockCipher) : Bytes → List Bytes → List Bytes
  | _, [] => []
  | prev, c :: cs => xorB prev (C.decB c) :: cbcDecBlocks C c cs

/-- Split a byte string into 16-byte chunks (fuel-based so the kernel can
evaluate it; the fuel is the length of the list, which is always enough). -/
def toBlocksF : Nat → Bytes → List Bytes
  | 0, _ => []
  | _, [] => []
  | fuel + 1, l => l.take 16 :: toBlocksF fuel (l.drop 16)

def toBlocks (l : Bytes) : List Bytes := toBlocksF l.length l

def ofBlocks (bs : List Bytes) : Bytes := bs.flatten

/-- PKCS#7 padding to a multiple of 16 bytes, as OpenSSL applies inside
cipher.final(): always appends between 1 and 16 copies of the pad length. -/
def pad16 (l : Bytes) : Bytes :=
  let r := 16 - l.length % 16
  l ++ List.replicate r r

/-- PKCS#7 unpadding, as OpenSSL checks inside decipher.final(): the last
byte gives the pad length, which must be 1..16 and all pad bytes must
equal it, else the decryption fails ("bad decrypt"). -/
def unpad16 (l : Bytes) : Except Bytes Bytes :=
  match l.getLast? with
  | none => .error (jstr "bad decrypt")
  | some r =>
    if r = 0 ∨ 16 < r ∨ l.length < r then .error (jstr "bad decrypt")
    else if l.drop (l.length - r) = List.replicate r r then .ok (l.take (l.length - r))
    else .error (jstr "bad decrypt")

/-- Full CBC encryption of a plaintext byte string (pad, chunk, chain). -/
def cbcEncrypt (C : BlockCipher) (iv m : Bytes) : Bytes :=
  ofBlocks (cbcEncBlocks C iv (toBlocks (pad16 m)))

/-- Full CBC decryption of a ciphertext byte string (chunk, chain); the
caller unpads afterwards, mirroring decipher.update + decipher.final. -/
def cbcDecrypt (C : BlockCipher) (iv ct : Bytes) : Bytes :=
  ofBlocks (cbcDecBlocks C iv (toBlocks ct))

-- ---------------------------------------------------------------------------
-- encrypt / decrypt from src/lib/config.js
-- ---------------------------------------------------------------------------

/-- Body of encrypt from src/lib/config.js for non-empty input: a fresh
random 16-byte IV is passed in explicitly; the result is
hex(iv) ++ ":" ++ hex(cipher). -/
def encryptBytes (C : BlockCipher) (iv text : Bytes) : Bytes :=
  hexEncode iv ++ colon :: hexEncode (cbcEncrypt C iv text)

/-- encrypt from src/lib/config.js: `if (!text) return text` models the
null/undefined/empty-string passthrough; otherwise encrypt for real. -/
def encryptJS (C : BlockCipher) (iv : Bytes) : Option Bytes → Option Bytes
  | none => none
  | some t => if t = [] then some t else some (encryptBytes C iv t)

/-- Body of decrypt from src/lib/config.js for input containing ':'.
parts = text.split(':'); iv = Buffer.from(parts.shift(), 'hex');
encrypted = parts.join(':') — equivalently the text before the first ':'
and the text after it.  createDecipheriv rejects an IV that is not
16 bytes; decipher.final rejects a ciphertext that is empty or not a
multiple of the block size, then checks the PKCS#7 padding. -/
def decryptBody (C : BlockCipher) (t : Bytes) : Except Bytes Bytes :=
  let iv := hexDecodeNode (t.takeWhile (· ≠ colon))
  let ctHex := (t.dropWhile (· ≠ colon)).tail
  if iv.length ≠ 16 then .error (jstr "Invalid initialization vector")
  else
    let ct := hexDecodeNode ctHex
    if ct.length = 0 ∨ ct.length % 16 ≠ 0 then .error (jstr "wrong final block length")
    else unpad16 (cbcDecrypt C iv ct)

/-- decrypt from src/lib/config.js:
`if (!text || !text.includes(':')) return text` models the passthrough of
null/undefined/empty input and of any string without the ':' separator;
otherwise real decryption is attempted and may fail. -/
def decryptJS (C : BlockCipher) : Option Bytes → Except Bytes (Option Bytes)
  | none => .ok none
  | some t => if t = [] ∨ colon ∉ t then .ok (some t) else (decryptBody C t).map some

/-- Concrete block-cipher instance (the identity permutation); used only
to instantiate witnesses of theorems that hold for every block cipher. -/
def idCipher : BlockCipher where
  encB := id
  decB := id
  enc_len := fun _ h => h
  enc_wf := fun _ _ h => h
  dec_enc := fun _ _ _ => rfl

-- ---------------------------------------------------------------------------
-- Profile store and credential resolution (src/lib/config.js)
-- ---------------------------------------------------------------------------

/-- A profile record as stored in config.json.  Fields that the source may
leave undefined are Options; authType absent defaults to oauth1 at use
sites, exactly as `profile.authType || 'oauth1'` does. -/
structure Profile where
  authType? : Option Bytes := none
  accountId? : Option Bytes := none
  clientId? : Option Bytes := none
  clientSecret? : Option Bytes := none
  consumerKey? : Option Bytes := none
  consumerSecret? : Option Bytes := none
  token? : Option Bytes := none
  tokenSecret? : Option Bytes := none
  realm? : Option Bytes := none
  accessToken? : Option Bytes := none
  refreshToken? : Option Bytes := none
  tokenExpiry? : Option Int := none
deriving DecidableEq, Repr

/-- The config.json document: profile name to profile record. -/
abbrev Config := List (Bytes × Profile)

/-- getProfile from src/lib/config.js: `config[profileName] || null`. -/
def getProfile : Config → Bytes → Option Profile
  | [], _ => none
  | (k, v) :: rest, name => if k = name then some v else getProfile rest name

/-- The five NSQL_* environment variables read by getEnvCredentials. -/
structure EnvVars where
  nsqlConsumerKey : Option Bytes
  nsqlConsumerSecret : Option Bytes
  nsqlToken : Option Bytes
  nsqlTokenSecret : Option Bytes
  nsqlRealm : Option Bytes
deriving DecidableEq

/-- The credentials object built by getEnvCredentials. -/
structure EnvCreds where
  consumerKey : Option Bytes
  consumerSecret : Option Bytes
  token? : Option Bytes
  tokenSecret : Option Bytes
  realm : Option Bytes
deriving DecidableEq

/-- getEnvCredentials from src/lib/config.js: the record of the five env
vars, returned only when every one is set and non-empty
(`Object.values(envCreds).every(v => v && v.length > 0)`). -/
def getEnvCredentials (e : EnvVars) : Option EnvCreds :=
  let envCreds : EnvCreds :=
    ⟨e.nsqlConsumerKey, e.nsqlConsumerSecret, e.nsqlToken, e.nsqlTokenSecret, e.nsqlRealm⟩
  if truthyS e.nsqlConsumerKey ∧ truthyS e.nsqlConsumerSecret ∧ truthyS e.nsqlToken
      ∧ truthyS e.nsqlTokenSecret ∧ truthyS e.nsqlRealm
  then some envCreds else none

/-- decryptOAuth2Profile from src/lib/config.js: decrypt clientSecret,
and refreshToken when present (else null). -/
def decryptOAuth2Profile (C : BlockCipher) (p : Profile) : Except Bytes Profile := do
  let cs ← decryptJS C p.clientSecret?
  let rt ← if truthyS p.refreshToken? then decryptJS C p.refreshToken? else pure none
  pure { p with clientSecret? := cs, refreshToken? := rt }

/-- The credential payload of a resolution: either the env-derived record
or a (possibly decrypted) stored profile. -/
inductive Creds
  | fromEnv (c : EnvCreds)
  | stored (p : Profile)
deriving DecidableEq

/-- The record resolveCredentials returns. -/
structure Resolution where
  credentials? : Option Creds
  source? : Option Bytes
  authType? : Option Bytes
deriving DecidableEq

/-- The effective authType of a profile: `profile.authType || 'oauth1'`. -/
def effAuthType (p : Profile) : Bytes :=
  match p.authType? with
  | none => jstr "oauth1"
  | some s => if s = [] then jstr "oauth1" else s

/-- resolveCredentials from src/lib/config.js: env vars first (all five
or none), then the named profile, decrypting oauth2 profiles. -/
def resolveCredentials (C : BlockCipher) (e : EnvVars) (cfg : Config) (name : Bytes) :
    Except Bytes Resolution :=
  match getEnvCredentials e with
  | some envCreds =>
    .ok ⟨some (.fromEnv envCreds), some (jstr "environment"), some (jstr "oauth1")⟩
  | none =>
    match getProfile cfg name with
    | some p =>
      if effAuthType p = jstr "oauth2" then
        (decryptOAuth2Profile C p).map fun d =>
          ⟨some (.stored d), some (jstr "profile"), some (jstr "oauth2")⟩
      else .ok ⟨some (.stored p), some (jstr "profile"), some (jstr "oauth1")⟩
    | none => .ok ⟨none, none, none⟩

/-- Expiry buffer from src/lib/config.js (5 minutes in milliseconds). -/
def TOKEN_EXPIRY_BUFFER_MS : Int := 5 * 60 * 1000

/-- JS falsiness of the numeric tokenExpiry field (absent or zero). -/
def falsyExpiry : Option Int → Bool
  | none => true
  | some n => n == 0

/-- isTokenExpired from src/lib/config.js, with Date.now() passed in:
`if (!profile.tokenExpiry || !profile.accessToken) return true;
return Date.now() >= (profile.tokenExpiry - TOKEN_EXPIRY_BUFFER_MS);`. -/
def isTokenExpired (now : Int) (p : Profile) : Bool :=
  if falsyExpiry p.tokenExpiry? || !truthyS p.accessToken? then true
  else decide (now ≥ p.tokenExpiry?.getD 0 - TOKEN_EXPIRY_BUFFER_MS)

/-- The tokens argument of saveOAuth2Tokens. -/
structure TokensIn where
  accessToken? : Option Bytes
  refreshToken? : Option Bytes
  tokenExpiry? : Option Int
deriving DecidableEq

/-- Replace the value stored under a name (the JS code mutates the
profile object inside the config document and rewrites the whole file). -/
def updateProfile (cfg : Config) (name : Bytes) (f : Profile → Profile) : Config :=
  cfg.map fun kv => if kv.1 = name then (kv.1, f kv.2) else kv

/-- saveOAuth2Tokens from src/lib/config.js: requires the profile to
exist, stores accessToken and tokenExpiry as given and refreshToken
encrypted; the fresh random IV used by encrypt is passed in. -/
def saveOAuth2Tokens (C : BlockCipher) (iv : Bytes) (cfg : Config) (name : Bytes)
    (tk : TokensIn) : Except Bytes Config :=
  match getProfile cfg name with
  | none => .error (jstr "Profile " ++ squote :: name ++ squote :: jstr " not found")
  | some _ => .ok (updateProfile cfg name fun p =>
      { p with
        accessToken? := tk.accessToken?
        refreshToken? := encryptJS C iv tk.refreshToken?
        tokenExpiry? := tk.tokenExpiry? })

-- ---------------------------------------------------------------------------
-- OAuth2 helpers (src/lib/oauth2.js)
-- ---------------------------------------------------------------------------

/-- Account-ID normalization performed by buildAuthorizationUrl and
getTokenEndpoint: `accountId.toLowerCase().replace(/_/g, '-')`.
toLowerCase is modelled on the ASCII range, which covers NetSuite account
identifiers (letters, digits, underscore). -/
def normalizeAccountId (a : Bytes) : Bytes :=
  (a.map fun c => if 65 ≤ c ∧ c ≤ 90 then c + 32 else c).map
    fun c => if c = 95 then 45 else c

/-- The fixed OAuth2 scope constant of src/lib/oauth2.js. -/
def SCOPE : Bytes := jstr "rest_webservices"

/-- Upper-case hex digit, as URLSearchParams percent-encoding emits. -/
def hexDigitUpper (n : Nat) : Nat := if n < 10 then 48 + n else 55 + n

/-- Percent-encoding of one byte under application/x-www-form-urlencoded
(URLSearchParams.toString): alphanumerics and *-._ kept, space to +,
everything else %XX. -/
def formEncodeByte (c : Nat) : Bytes :=
  if (48 ≤ c ∧ c ≤ 57) ∨ (65 ≤ c ∧ c ≤ 90) ∨ (97 ≤ c ∧ c ≤ 122)
      ∨ c = 42 ∨ c = 45 ∨ c = 46 ∨ c = 95 then [c]
  else if c = 32 then [43]
  else [37, hexDigitUpper (c / 16), hexDigitUpper (c % 16)]

def formEncode (s : Bytes) : Bytes := s.flatMap formEncodeByte

/-- URLSearchParams.toString(): key=value pairs joined with ampersands. -/
def formEncodePairs (ps : List (Bytes × Bytes)) : Bytes :=
  ((ps.map fun p => formEncode p.1 ++ 61 :: formEncode p.2).intersperse [38]).flatten

/-- buildAuthorizationUrl from src/lib/oauth2.js. -/
def buildAuthorizationUrl (accountId clientId redirectUri state codeChallenge : Bytes) : Bytes :=
  jstr "https://" ++ normalizeAccountId accountId
    ++ jstr ".app.netsuite.com/app/login/oauth2/authorize.nl"
    ++ 63 :: formEncodePairs
      [(jstr "response_type", jstr "code"),
       (jstr "client_id", clientId),
       (jstr "redirect_uri", redirectUri),
       (jstr "scope", SCOPE),
       (jstr "state", state),
       (jstr "code_challenge", codeChallenge),
       (jstr "code_challenge_method", jstr "S256")]

/-- getTokenEndpoint from src/lib/oauth2.js. -/
def getTokenEndpoint (accountId : Bytes) : Bytes :=
  jstr "https://" ++ normalizeAccountId accountId
    ++ jstr ".suitetalk.api.netsuite.com/services/rest/auth/oauth2/v1/token"

-- ---------------------------------------------------------------------------
-- PKCE (src/lib/oauth2.js generatePKCE)
-- ---------------------------------------------------------------------------

/-- Character of one 6-bit group in the base64url alphabet
(A-Z, a-z, 0-9, -, _; never the padding character =). -/
def b64Char (k : Nat) : Nat :=
  if k < 26 then 65 + k
  else if k < 52 then 97 + (k - 26)
  else if k < 62 then 48 + (k - 52)
  else if k = 62 then 45
  else 95

/-- Node Buffer toString('base64url'): unpadded base64 with the URL-safe
alphabet. -/
def base64urlEncode : Bytes → Bytes
  | [] => []
  | [a] => [b64Char (a / 4), b64Char (a % 4 * 16)]
  | [a, b] => [b64Char (a / 4), b64Char (a % 4 * 16 + b / 16), b64Char (b % 16 * 4)]
  | a :: b :: c :: rest =>
    b64Char (a / 4) :: b64Char (a % 4 * 16 + b / 16)
      :: b64Char (b % 16 * 4 + c / 64) :: b64Char (c % 64) :: base64urlEncode rest

/-- generatePKCE from src/lib/oauth2.js, with the 32 random bytes and the
SHA-256 digest function (both provided by Node's crypto library) passed
in explicitly: verifier = base64url(randomBytes(32)).slice(0, 64),
challenge = base64url(sha256(verifier)). -/
def generatePKCE (randomBytes32 : Bytes) (sha256 : Bytes → Bytes) : Bytes × Bytes :=
  let codeVerifier := (base64urlEncode randomBytes32).take 64
  let codeChallenge := base64urlEncode (sha256 codeVerifier)
  (codeVerifier, codeChallenge)

-- ---------------------------------------------------------------------------
-- Callback server (src/lib/oauth2.js startCallbackServer)
-- ---------------------------------------------------------------------------

/-- The fixed callback path of src/lib/oauth2.js. -/
def CALLBACK_PATH : Bytes := jstr "/callback"

/-- One HTTP request to the callback listener: its path and the values of
the code, state and error query parameters (URLSearchParams.get returns
null for an absent parameter). -/
structure CallbackRequest where
  path : Bytes
  code? : Option Bytes
  state? : Option Bytes
  error? : Option Bytes

/-- How the pending login promise is settled by one request. -/
inductive CallbackOutcome
  | resolved (code : Bytes) (state : Option Bytes)
  | rejectedDenied (msg : Bytes)
  | rejectedNoCode (msg : Bytes)
deriving DecidableEq

/-- What the listener does after answering one request: keep accepting,
or close the socket with a settled outcome. -/
inductive ServerNext
  | keepListening
  | closed (o : CallbackOutcome)
deriving DecidableEq

/-- The request handler of startCallbackServer: status code answered and
the listener's next state.  Requests off the callback path get 404 and
leave the server listening; error (truthy) rejects; a missing/empty code
rejects with 400; otherwise resolve with { code, state } — in each of
those three cases the server is closed. -/
def handleCallbackRequest (req : CallbackRequest) : Nat × ServerNext :=
  if req.path ≠ CALLBACK_PATH then (404, .keepListening)
  else if truthyS req.error? then
    (200, .closed (.rejectedDenied
      (jstr "Authorization denied: " ++ req.error?.getD [])))
  else if !truthyS req.code? then
    (400, .closed (.rejectedNoCode (jstr "No authorization code received in callback")))
  else (200, .closed (.resolved (req.code?.getD []) req.state?))

-- ---------------------------------------------------------------------------
-- Login orchestration (src/lib/oauth2.js login)
-- ---------------------------------------------------------------------------

/-- Token-endpoint response as returned by exchangeCodeForTokens. -/
structure TokenResponse where
  accessToken? : Option Bytes
  refreshToken? : Option Bytes
  expiresIn : Int
  tokenType? : Option Bytes
deriving DecidableEq

/-- The login flow's result record. -/
structure LoginResult where
  accessToken? : Option Bytes
  refreshToken? : Option Bytes
  expiresIn : Int
  tokenExpiry : Int
deriving DecidableEq

/-- Outcomes of the external steps the login flow awaits, in program
order: the `await open(authUrl)` browser-open step, the callback
listener's settlement, and the token exchange. -/
structure LoginWorld where
  openResult : Except Bytes Unit
  callbackResult : Except Bytes (Bytes × Option Bytes)
  exchangeResult : Except Bytes TokenResponse

/-- The control flow of login from src/lib/oauth2.js after the
authorization URL is printed: the code awaits open(authUrl) with no
try/catch (line 269), so a rejected browser-open propagates before the
callback promise is ever awaited; then the returned state is compared
with the generated one; then the code is exchanged and tokenExpiry
computed as now + expiresIn * 1000. -/
def loginFlow (w : LoginWorld) (state : Bytes) (now : Int) : Except Bytes LoginResult :=
  match w.openResult with
  | .error e => .error e
  | .ok _ =>
    match w.callbackResult with
    | .error e => .error e
    | .ok (_, returnedState) =>
      if returnedState ≠ some state then
        .error (jstr "State mismatch: possible CSRF attack. Please try again.")
      else
        match w.exchangeResult with
        | .error e => .error e
        | .ok t => .ok ⟨t.accessToken?, t.refreshToken?, t.expiresIn, now + t.expiresIn * 1000⟩

-- ---------------------------------------------------------------------------
-- Concrete inputs used to instantiate witnesses
-- ---------------------------------------------------------------------------

/-- A concrete 16-byte IV. -/
def wIv : Bytes := List.replicate 16 0

/-- A second, different concrete 16-byte IV. -/
def wIv2 : Bytes := 1 :: List.replicate 15 0

/-- Environment with all five NSQL_* variables set and non-empty. -/
def wEnvAll : EnvVars :=
  ⟨some (jstr "ck"), some (jstr "cs"), some (jstr "tk"), some (jstr "ts"), some (jstr "rlm")⟩

/-- Environment with only 2 of the 5 NSQL_* variables set. -/
def wEnvTwo : EnvVars := ⟨some (jstr "ck"), some (jstr "cs"), none, none, none⟩

/-- A stored legacy (oauth1) profile. -/
def wLegacyProfile : Profile :=
  { consumerKey? := some (jstr "k"), consumerSecret? := some (jstr "s"),
    token? := some (jstr "t"), tokenSecret? := some (jstr "ts"), realm? := some (jstr "r") }

/-- A config document holding the legacy profile under the default name. -/
def wConfig : Config := [(jstr "default", wLegacyProfile)]

/-- A configured (not yet authenticated) delegated oauth2 profile. -/
def wOAuth2Profile : Profile :=
  { authType? := some (jstr "oauth2"), accountId? := some (jstr "TSTDRV1"),
    clientId? := some (jstr "c"), clientSecret? := some (jstr "s") }

/-- A config document holding the oauth2 profile under the name prod. -/
def wConfig2 : Config := [(jstr "prod", wOAuth2Profile)]

/-- A concrete token set as passed to saveOAuth2Tokens. -/
def wTokens : TokensIn := ⟨some (jstr "at"), some (jstr "rt"), some 1234⟩

-- ---------------------------------------------------------------------------
-- Theorems
-- ---------------------------------------------------------------------------

theorem hexVal_hexDigit {n : Nat} (h : n < 16) : hexVal (hexDigit n) = some n := by
  unfold hexDigit hexVal
  by_cases h10 : n < 10
  · rw [if_pos h10, if_pos (by omega)]
    congr 1
    omega
  · rw [if_neg h10, if_neg (by omega), if_pos (by omega)]
    congr 1
    omega

theorem hexDigit_ne_colon (n : Nat) : hexDigit n ≠ colon := by
  unfold hexDigit colon
  by_cases h10 : n < 10
  · rw [if_pos h10]; omega
  · rw [if_neg h10]; omega

theorem colon_not_mem_hexEncode (l : Bytes) : colon ∉ hexEncode l := by
  unfold hexEncode
  intro hmem
  rcases List.mem_flatMap.mp hmem with ⟨b, _, hb⟩
  simp only [List.mem_cons, List.not_mem_nil] at hb
  rcases hb with h | h | h
  · exact hexDigit_ne_colon _ h.symm
  · exact hexDigit_ne_colon _ h.symm
  · exact h

theorem hexDecode_hexEncode {l : Bytes} (h : Wf l) : hexDecodeNode (hexEncode l) = l := by
  induction l with
  | nil => rfl
  | cons b rest ih =>
    have hb : b < 256 := h b (List.mem_cons_self _ _)
    have hhi : b / 16 < 16 := by omega
    have hlo : b % 16 < 16 := by omega
    have hrest : Wf rest := fun x hx => h x (List.mem_cons_of_mem _ hx)
    show hexDecodeNode ((b :: rest).flatMap fun b => [hexDigit (b / 16), hexDigit (b % 16)]) = b :: rest
    rw [List.flatMap_cons]
    simp only [List.cons_append, List.nil_append, hexDecodeNode,
      hexVal_hexDigit hhi, hexVal_hexDigit hlo]
    have ihr := ih hrest
    unfold hexEncode at ihr
    show (16 * (b / 16) + b % 16) ::
        hexDecodeNode (rest.flatMap fun b => [hexDigit (b / 16), hexDigit (b % 16)]) = b :: rest
    rw [ihr]
    congr 1
    omega

theorem hexEncode_length (l : Bytes) : (hexEncode l).length = 2 * l.length := by
  induction l with
  | nil => rfl
  | cons b rest ih =>
    show ((b :: rest).flatMap fun b => [hexDigit (b / 16), hexDigit (b % 16)]).length = _
    rw [List.flatMap_cons, List.length_append]
    simp only [List.length_cons, List.length_nil, List.length]
    rw [show (rest.flatMap fun b => [hexDigit (b / 16), hexDigit (b % 16)]).length = 2 * rest.length from ih]
    omega

theorem hexEncode_inj {a b : Bytes} (ha : Wf a) (hb : Wf b)
    (h : hexEncode a = hexEncode b) : a = b := by
  have := congrArg hexDecodeNode h
  rwa [hexDecode_hexEncode ha, hexDecode_hexEncode hb] at this

-- ---------------------------------------------------------------------------
-- Lemmas about XOR blocks, chunking, padding and CBC
-- ---------------------------------------------------------------------------

theorem xorB_length : ∀ (a b : Bytes), (xorB a b).length = min a.length b.length
  | [], _ => by simp [xorB]
  | _ :: _, [] => by simp [xorB]
  | x :: xs, y :: ys => by
    simp only [xorB, List.zipWith_cons_cons, List.length_cons] at *
    rw [show (List.zipWith (· ^^^ ·) xs ys).length = min xs.length ys.length from xorB_length xs ys]
    omega

theorem xorB_wf : ∀ {a b : Bytes}, Wf a → Wf b → Wf (xorB a b)
  | [], _, _, _ => by intro x hx; simp [xorB] at hx
  | _ :: _, [], _, _ => by intro x hx; simp [xorB] at hx
  | x :: xs, y :: ys, ha, hb => by
    intro z hz
    simp only [xorB, List.zipWith_cons_cons, List.mem_cons] at hz
    rcases hz with h | h
    · subst h
      exact Nat.xor_lt_two_pow (n := 8) (ha x (by simp)) (hb y (by simp))
    · exact xorB_wf (fun u hu => ha u (List.mem_cons_of_mem _ hu))
        (fun u hu => hb u (List.mem_cons_of_mem _ hu)) z h

theorem xorB_xorB : ∀ {a b : Bytes}, a.length = b.length → xorB a (xorB a b) = b
  | [], [], _ => rfl
  | x :: xs, y :: ys, h => by
    simp only [xorB, List.zipWith_cons_cons, List.length_cons] at *
    rw [Nat.xor_cancel_left]
    exact congrArg (y :: ·) (xorB_xorB (by omega))
  | [], _ :: _, h => by simp at h
  | _ :: _, [], h => by simp at h

theorem cbcEncBlocks_blocks (C : BlockCipher) :
    ∀ (ms : List Bytes) (iv : Bytes), iv.length = 16 → Wf iv →
      (∀ m ∈ ms, m.length = 16 ∧ Wf m) →
      ∀ c ∈ cbcEncBlocks C iv ms, c.length = 16 ∧ Wf c
  | [], _, _, _, _ => by intro c hc; simp [cbcEncBlocks] at hc
  | m :: ms, iv, hlen, hwf, hm => by
    intro c hc
    have hm0 := hm m (List.mem_cons_self _ _)
    have hxlen : (xorB iv m).length = 16 := by rw [xorB_length, hlen, hm0.1]; omega
    have hxwf : Wf (xorB iv m) := xorB_wf hwf hm0.2
    have hclen : (C.encB (xorB iv m)).length = 16 := C.enc_len _ hxlen
    have hcwf : Wf (C.encB (xorB iv m)) := C.enc_wf _ hxlen hxwf
    simp only [cbcEncBlocks, List.mem_cons] at hc
    rcases hc with h | h
    · subst h; exact ⟨hclen, hcwf⟩
    · exact cbcEncBlocks_blocks C ms _ hclen hcwf
        (fun u hu => hm u (List.mem_cons_of_mem _ hu)) c h

theorem cbcDec_cbcEnc (C : BlockCipher) :
    ∀ (ms : List Bytes) (iv : Bytes), iv.length = 16 → Wf iv →
      (∀ m ∈ ms, m.length = 16 ∧ Wf m) →
      cbcDecBlocks C iv (cbcEncBlocks C iv ms) = ms
  | [], _, _, _, _ => rfl
  | m :: ms, iv, hlen, hwf, hm => by
    have hm0 := hm m (List.mem_cons_self _ _)
    have hxlen : (xorB iv m).length = 16 := by rw [xorB_length, hlen, hm0.1]; omega
    have hxwf : Wf (xorB iv m) := xorB_wf hwf hm0.2
    have hclen : (C.encB (xorB iv m)).length = 16 := C.enc_len _ hxlen
    have hcwf : Wf (C.encB (xorB iv m)) := C.enc_wf _ hxlen hxwf
    simp only [cbcEncBlocks, cbcDecBlocks]
    rw [C.dec_enc _ hxlen hxwf, xorB_xorB (by omega)]
    exact congrArg (m :: ·) (cbcDec_cbcEnc C ms _ hclen hcwf
      (fun u hu => hm u (List.mem_cons_of_mem _ hu)))

theorem cbcEncBlocks_length (C : BlockCipher) :
    ∀ (ms : List Bytes) (iv : Bytes), (cbcEncBlocks C iv ms).length = ms.length
  | [], _ => rfl
  | _ :: ms, _ => by
    simp only [cbcEncBlocks, List.length_cons]
    rw [cbcEncBlocks_length C ms]

theorem toBlocksF_join : ∀ (fuel : Nat) (l : Bytes), l.length ≤ fuel →
    ofBlocks (toBlocksF fuel l) = l
  | 0, l, h => by
    have : l = [] := List.eq_nil_of_length_eq_zero (by omega)
    subst this; rfl
  | fuel + 1, [], _ => rfl
  | fuel + 1, x :: xs, h => by
    show ofBlocks ((x :: xs).take 16 :: toBlocksF fuel ((x :: xs).drop 16)) = x :: xs
    have hrec : ofBlocks (toBlocksF fuel ((x :: xs).drop 16)) = (x :: xs).drop 16 :=
      toBlocksF_join fuel _ (by simp only [List.length_drop, List.length_cons] at *; omega)
    simp only [ofBlocks, List.flatten_cons] at *
    rw [hrec, List.take_append_drop]

theorem toBlocks_join (l : Bytes) : ofBlocks (toBlocks l) = l :=
  toBlocksF_join l.length l le_rfl

theorem toBlocksF_blocklen : ∀ (fuel : Nat) (l : Bytes), 16 ∣ l.length →
    ∀ b ∈ toBlocksF fuel l, b.length = 16
  | 0, _, _ => by intro b hb; simp [toBlocksF] at hb
  | fuel + 1, [], _ => by intro b hb; simp [toBlocksF] at hb
  | fuel + 1, x :: xs, hdvd => by
    intro b hb
    have hlen16 : 16 ≤ (x :: xs).length := by
      rcases hdvd with ⟨k, hk⟩
      simp only [List.length_cons] at hk ⊢
      omega
    simp only [toBlocksF, List.mem_cons] at hb
    rcases hb with h | h
    · subst h
      simp only [List.length_take]
      omega
    · refine toBlocksF_blocklen fuel _ ?_ b h
      simp only [List.length_drop]
      rcases hdvd with ⟨k, hk⟩
      exact ⟨k - 1, by omega⟩

theorem toBlocksF_wf : ∀ (fuel : Nat) (l : Bytes), Wf l → ∀ b ∈ toBlocksF fuel l, Wf b
  | 0, _, _ => by intro b hb; simp [toBlocksF] at hb
  | fuel + 1, [], _ => by intro b hb; simp [toBlocksF] at hb
  | fuel + 1, x :: xs, hwf => by
    intro b hb
    simp only [toBlocksF, List.mem_cons] at hb
    rcases hb with h | h
    · subst h
      exact fun u hu => hwf u (List.take_subset _ _ hu)
    · exact toBlocksF_wf fuel _ (fun u hu => hwf u (List.drop_subset _ _ hu)) b h

theorem toBlocksF_ofBlocks : ∀ (fuel : Nat) (bs : List Bytes),
    (∀ b ∈ bs, b.length = 16) → (ofBlocks bs).length ≤ fuel →
    toBlocksF fuel (ofBlocks bs) = bs
  | fuel, [], _, _ => by cases fuel <;> rfl
  | 0, b :: rest, h, hf => by
    exfalso
    have hb : b.length = 16 := h b (List.mem_cons_self _ _)
    have : (ofBlocks (b :: rest)).length = 16 + (ofBlocks rest).length := by
      simp only [ofBlocks, List.flatten_cons, List.length_append, hb]
    omega
  | fuel + 1, b :: rest, h, hf => by
    have hb : b.length = 16 := h b (List.mem_cons_self _ _)
    obtain ⟨x, xs, hx⟩ : ∃ x xs, b = x :: xs := by
      cases b with
      | nil => simp at hb
      | cons x xs => exact ⟨x, xs, rfl⟩
    have hflat : ofBlocks (b :: rest) = (x :: xs) ++ ofBlocks rest := by
      simp only [ofBlocks, List.flatten_cons, hx]
    have hflen : (ofBlocks (b :: rest)).length = 16 + (ofBlocks rest).length := by
      simp only [ofBlocks, List.flatten_cons, List.length_append, hb]
    rw [hflat]
    show ((x :: xs) ++ ofBlocks rest).take 16 :: toBlocksF fuel (((x :: xs) ++ ofBlocks rest).drop 16)
        = b :: rest
    rw [hx] at hb
    rw [List.take_left' hb, List.drop_left' hb, ← hx]
    exact congrArg (b :: ·) (toBlocksF_ofBlocks fuel rest
      (fun u hu => h u (List.mem_cons_of_mem _ hu)) (by rw [hflat] at hf; simp at hf; omega))

theorem toBlocks_ofBlocks (bs : List Bytes) (h : ∀ b ∈ bs, b.length = 16) :
    toBlocks (ofBlocks bs) = bs :=
  toBlocksF_ofBlocks _ bs h le_rfl

theorem ofBlocks_wf {bs : List Bytes} (h : ∀ b ∈ bs, Wf b) : Wf (ofBlocks bs) := by
  intro x hx
  simp only [ofBlocks, List.mem_flatten] at hx
  rcases hx with ⟨b, hb, hxb⟩
  exact h b hb x hxb

theorem ofBlocks_length16 : ∀ (bs : List Bytes), (∀ b ∈ bs, b.length = 16) →
    (ofBlocks bs).length = 16 * bs.length
  | [], _ => rfl
  | b :: rest, h => by
    have ih := ofBlocks_length16 rest fun u hu => h u (List.mem_cons_of_mem _ hu)
    simp only [ofBlocks, List.flatten_cons, List.length_append, List.length_cons] at ih ⊢
    rw [h b (List.mem_cons_self _ _), ih]
    ring

theorem pad16_length (l : Bytes) : (pad16 l).length = l.length + (16 - l.length % 16) := by
  simp [pad16]

theorem pad16_mod (l : Bytes) : (pad16 l).length % 16 = 0 := by
  rw [pad16_length]
  omega

theorem pad16_pos (l : Bytes) : 0 < (pad16 l).length := by
  rw [pad16_length]
  omega

theorem pad16_wf {l : Bytes} (h : Wf l) : Wf (pad16 l) := by
  intro x hx
  simp only [pad16, List.mem_append] at hx
  rcases hx with hx | hx
  · exact h x hx
  · have := List.eq_of_mem_replicate hx
    omega

theorem unpad16_pad16 (l : Bytes) : unpad16 (pad16 l) = .ok l := by
  have hm : l.length % 16 < 16 := Nat.mod_lt _ (by norm_num)
  set r := 16 - l.length % 16 with hr
  have hr1 : 1 ≤ r := by omega
  have hr16 : r ≤ 16 := by omega
  have hrep : List.replicate r r = List.replicate (r - 1) r ++ [r] := by
    rw [← List.replicate_succ']
    congr 1
    omega
  have hsplit : pad16 l = (l ++ List.replicate (r - 1) r) ++ [r] := by
    simp only [pad16, ← hr, hrep, List.append_assoc]
  have hlast : (pad16 l).getLast? = some r := by
    rw [hsplit]
    exact List.getLast?_concat _
  have hplen : (pad16 l).length = l.length + r := by
    rw [pad16_length, ← hr]
  unfold unpad16
  rw [hlast]
  show (if r = 0 ∨ 16 < r ∨ (pad16 l).length < r then Except.error (jstr "bad decrypt")
    else if (pad16 l).drop ((pad16 l).length - r) = List.replicate r r
      then Except.ok ((pad16 l).take ((pad16 l).length - r))
      else Except.error (jstr "bad decrypt")) = Except.ok l
  rw [if_neg (by omega)]
  have hdrop : (pad16 l).drop ((pad16 l).length - r) = List.replicate r r := by
    rw [hplen]
    have : l.length + r - r = l.length := by omega
    rw [this]
    show (l ++ List.replicate r r).drop l.length = List.replicate r r
    exact List.drop_left' rfl
  rw [if_pos hdrop]
  congr 1
  rw [hplen]
  have : l.length + r - r = l.length := by omega
  rw [this]
  show (l ++ List.replicate r r).take l.length = l
  exact List.take_left' rfl

-- ---------------------------------------------------------------------------
-- Round trip and shape of encrypt/decrypt
-- ---------------------------------------------------------------------------

theorem takeWhile_append_colon {a : Bytes} (ha : colon ∉ a) (b : Bytes) :
    (a ++ colon :: b).takeWhile (· ≠ colon) = a := by
  induction a with
  | nil => simp [List.takeWhile]
  | cons x xs ih =>
    have hx : x ≠ colon := fun h => ha (h ▸ List.mem_cons_self _ _)
    have hxs : colon ∉ xs := fun h => ha (List.mem_cons_of_mem _ h)
    simp only [List.cons_append, List.takeWhile]
    rw [decide_eq_true hx]
    exact congrArg (x :: ·) (ih hxs)

theorem dropWhile_append_colon {a : Bytes} (ha : colon ∉ a) (b : Bytes) :
    ((a ++ colon :: b).dropWhile (· ≠ colon)).tail = b := by
  induction a with
  | nil => simp [List.dropWhile]
  | cons x xs ih =>
    have hx : x ≠ colon := fun h => ha (h ▸ List.mem_cons_self _ _)
    have hxs : colon ∉ xs := fun h => ha (List.mem_cons_of_mem _ h)
    simp only [List.cons_append, List.dropWhile]
    rw [decide_eq_true hx]
    exact ih hxs

/-- Every block of the ciphertext produced by cbcEncBlocks on the padded
plaintext is a well-formed 16-byte block. -/
theorem cbcEncrypt_blocks (C : BlockCipher) {iv m : Bytes}
    (hlen : iv.length = 16) (hiv : Wf iv) (hm : Wf m) :
    ∀ c ∈ cbcEncBlocks C iv (toBlocks (pad16 m)), c.length = 16 ∧ Wf c := by
  refine cbcEncBlocks_blocks C _ iv hlen hiv ?_
  intro b hb
  exact ⟨toBlocksF_blocklen _ _ (by have := pad16_mod m; omega) b hb,
    toBlocksF_wf _ _ (pad16_wf hm) b hb⟩

theorem cbcEncrypt_wf (C : BlockCipher) {iv m : Bytes}
    (hlen : iv.length = 16) (hiv : Wf iv) (hm : Wf m) : Wf (cbcEncrypt C iv m) :=
  ofBlocks_wf fun b hb => (cbcEncrypt_blocks C hlen hiv hm b hb).2

theorem cbcEncrypt_length (C : BlockCipher) {iv m : Bytes}
    (hlen : iv.length = 16) (hiv : Wf iv) (hm : Wf m) :
    (cbcEncrypt C iv m).length = (pad16 m).length := by
  unfold cbcEncrypt
  rw [ofBlocks_length16 _ (fun b hb => (cbcEncrypt_blocks C hlen hiv hm b hb).1),
    cbcEncBlocks_length]
  have h1 : (ofBlocks (toBlocks (pad16 m))).length = (pad16 m).length := by
    rw [toBlocks_join]
  rw [ofBlocks_length16 (toBlocks (pad16 m)) (fun b hb =>
    toBlocksF_blocklen _ _ (by have := pad16_mod m; omega) b hb)] at h1
  omega

/-- The repository's decrypt inverts its encrypt on every non-empty
well-formed plaintext, for every block cipher and well-formed 16-byte IV. -/
theorem decryptJS_encryptBytes (C : BlockCipher) {iv s : Bytes}
    (hlen : iv.length = 16) (hiv : Wf iv) (hs : Wf s) :
    decryptJS C (some (encryptBytes C iv s)) = .ok (some s) := by
  have hct_wf : Wf (cbcEncrypt C iv s) := cbcEncrypt_wf C hlen hiv hs
  have hct_len : (cbcEncrypt C iv s).length = (pad16 s).length := cbcEncrypt_length C hlen hiv hs
  have hmem : colon ∈ encryptBytes C iv s := by
    unfold encryptBytes
    simp
  have hne' : encryptBytes C iv s ≠ [] := fun h => by rw [h] at hmem; simp at hmem
  show (if encryptBytes C iv s = [] ∨ colon ∉ encryptBytes C iv s
      then Except.ok (some (encryptBytes C iv s))
      else Except.map some (decryptBody C (encryptBytes C iv s))) = Except.ok (some s)
  rw [if_neg (by push_neg; exact ⟨hne', hmem⟩)]
  unfold encryptBytes
  simp only [decryptBody]
  rw [takeWhile_append_colon (colon_not_mem_hexEncode iv),
    dropWhile_append_colon (colon_not_mem_hexEncode iv),
    hexDecode_hexEncode hiv, hexDecode_hexEncode hct_wf, hlen]
  rw [if_neg (by omega)]
  rw [if_neg (by
    have h0 : 0 < (pad16 s).length := pad16_pos s
    have hm := pad16_mod s
    omega)]
  unfold cbcDecrypt cbcEncrypt
  rw [toBlocks_ofBlocks _ (fun b hb => (cbcEncrypt_blocks C hlen hiv hs b hb).1)]
  rw [cbcDec_cbcEnc C (toBlocks (pad16 s)) iv hlen hiv (fun b hb =>
    ⟨toBlocksF_blocklen _ _ (by have := pad16_mod s; omega) b hb,
     toBlocksF_wf _ _ (pad16_wf hs) b hb⟩)]
  rw [toBlocks_join, unpad16_pad16]
  rfl

/-- Shape and size of an encrypted value: hex(iv), a colon, hex(cipher);
its length strictly exceeds twice the plaintext length plus 34, so an
encrypted value is never equal to its plaintext. -/
theorem encryptBytes_length (C : BlockCipher) {iv s : Bytes}
    (hlen : iv.length = 16) (hiv : Wf iv) (hs : Wf s) :
    (encryptBytes C iv s).length = 33 + 2 * (pad16 s).length := by
  unfold encryptBytes
  simp only [List.length_append, List.length_cons, hexEncode_length,
    cbcEncrypt_length C hlen hiv hs, hlen]
  omega

theorem encryptBytes_ne_plaintext (C : BlockCipher) {iv s : Bytes}
    (hlen : iv.length = 16) (hiv : Wf iv) (hs : Wf s) :
    encryptBytes C iv s ≠ s := by
  intro h
  have h1 := encryptBytes_length C hlen hiv hs
  rw [h] at h1
  have h2 := pad16_length s
  omega

/-- Distinct IVs give distinct encrypted outputs (the IV is the hex text
before the first colon and hex encoding is injective on byte strings). -/
theorem encryptBytes_iv_inj (C : BlockCipher) {iv iv' s : Bytes}
    (hiv : Wf iv) (hiv' : Wf iv')
    (h : encryptBytes C iv s = encryptBytes C iv' s) : iv = iv' := by
  have h1 := congrArg (List.takeWhile (· ≠ colon)) h
  unfold encryptBytes at h1
  rw [takeWhile_append_colon (colon_not_mem_hexEncode iv),
    takeWhile_append_colon (colon_not_mem_hexEncode iv')] at h1
  exact hexEncode_inj hiv hiv' h1

theorem getProfile_updateProfile {cfg : Config} {name : Bytes} {p : Profile}
    (f : Profile → Profile) (h : getProfile cfg name = some p) :
    getProfile (updateProfile cfg name f) name = some (f p) := by
  induction cfg with
  | nil => simp [getProfile] at h
  | cons kv rest ih =>
    obtain ⟨k, v⟩ := kv
    by_cases hk : k = name
    · have h2 : v = p := by
        simp only [getProfile, if_pos hk] at h
        exact Option.some_inj.mp h
      subst h2
      show getProfile ((if k = name then (k, f v) else (k, v)) :: updateProfile rest name f)
          name = some (f v)
      rw [if_pos hk]
      simp only [getProfile, if_pos hk]
    · have hrest : getProfile rest name = some p := by
        simp only [getProfile, if_neg hk] at h
        exact h
      show getProfile ((if k = name then (k, f v) else (k, v)) :: updateProfile rest name f)
          name = some (f p)
      rw [if_neg hk]
      simp only [getProfile, if_neg hk]
      exact ih hrest


theorem b64Char_ne_61 (k : Nat) : b64Char k ≠ 61 := by
  unfold b64Char
  split
  · omega
  · split
    · omega
    · split
      · omega
      · split <;> omega

theorem base64urlEncode_length : ∀ (l : Bytes),
    (base64urlEncode l).length = (4 * l.length + 2) / 3
  | [] => rfl
  | [_] => by
    simp only [base64urlEncode, List.length_cons, List.length_nil]
  | [_, _] => by
    simp only [base64urlEncode, List.length_cons, List.length_nil]
  | _ :: _ :: _ :: rest => by
    simp only [base64urlEncode, List.length_cons]
    rw [base64urlEncode_length rest]
    omega

theorem base64urlEncode_no_61 : ∀ (l : Bytes), 61 ∉ base64urlEncode l
  | [] => by simp [base64urlEncode]
  | [a] => by
    simp only [base64urlEncode, List.mem_cons, List.not_mem_nil, or_false]
    push_neg
    exact ⟨fun h => b64Char_ne_61 _ h.symm, fun h => b64Char_ne_61 _ h.symm⟩
  | [a, b] => by
    simp only [base64urlEncode, List.mem_cons, List.not_mem_nil, or_false]
    push_neg
    exact ⟨fun h => b64Char_ne_61 _ h.symm, fun h => b64Char_ne_61 _ h.symm,
      fun h => b64Char_ne_61 _ h.symm⟩
  | a :: b :: c :: rest => by
    simp only [base64urlEncode, List.mem_cons]
    push_neg
    exact ⟨fun h => b64Char_ne_61 _ h.symm, fun h => b64Char_ne_61 _ h.symm,
      fun h => b64Char_ne_61 _ h.symm, fun h => b64Char_ne_61 _ h.symm,
      base64urlEncode_no_61 rest⟩

-- ---------------------------------------------------------------------------
-- Claim theorems
-- ---------------------------------------------------------------------------

/-- C1: resolveCredentials uses the environment-derived record with source
"environment" whenever all five legacy env vars are set and non-empty,
independent of the stored config; when any of the five is unset or empty,
none of them are used and resolution falls back to the named stored
profile with source "profile" (both for a legacy profile and for a
delegated profile whose decryption succeeds). -/
theorem c1_resolveCredentials_precedence (C : BlockCipher) (e : EnvVars) (cfg : Config)
    (name : Bytes) :
    ((truthyS e.nsqlConsumerKey ∧ truthyS e.nsqlConsumerSecret ∧ truthyS e.nsqlToken
        ∧ truthyS e.nsqlTokenSecret ∧ truthyS e.nsqlRealm) →
      resolveCredentials C e cfg name =
        .ok ⟨some (.fromEnv ⟨e.nsqlConsumerKey, e.nsqlConsumerSecret, e.nsqlToken,
            e.nsqlTokenSecret, e.nsqlRealm⟩),
          some (jstr "environment"), some (jstr "oauth1")⟩)
    ∧ (¬(truthyS e.nsqlConsumerKey ∧ truthyS e.nsqlConsumerSecret ∧ truthyS e.nsqlToken
        ∧ truthyS e.nsqlTokenSecret ∧ truthyS e.nsqlRealm) →
      ∀ p, getProfile cfg name = some p → effAuthType p ≠ jstr "oauth2" →
        resolveCredentials C e cfg name =
          .ok ⟨some (.stored p), some (jstr "profile"), some (jstr "oauth1")⟩)
    ∧ (¬(truthyS e.nsqlConsumerKey ∧ truthyS e.nsqlConsumerSecret ∧ truthyS e.nsqlToken
        ∧ truthyS e.nsqlTokenSecret ∧ truthyS e.nsqlRealm) →
      ∀ p d, getProfile cfg name = some p → effAuthType p = jstr "oauth2" →
        decryptOAuth2Profile C p = .ok d →
        resolveCredentials C e cfg name =
          .ok ⟨some (.stored d), some (jstr "profile"), some (jstr "oauth2")⟩) := by
  refine ⟨?_, ?_, ?_⟩
  · intro h
    unfold resolveCredentials getEnvCredentials
    rw [if_pos h]
  · intro h p hp hne
    unfold resolveCredentials getEnvCredentials
    rw [if_neg h]
    show (match getProfile cfg name with
      | some p =>
        if effAuthType p = jstr "oauth2" then
          (decryptOAuth2Profile C p).map fun d =>
            (⟨some (Creds.stored d), some (jstr "profile"), some (jstr "oauth2")⟩ : Resolution)
        else Except.ok
          (⟨some (Creds.stored p), some (jstr "profile"), some (jstr "oauth1")⟩ : Resolution)
      | none => Except.ok (⟨none, none, none⟩ : Resolution)) = _
    rw [hp]
    show (if effAuthType p = jstr "oauth2" then
        (decryptOAuth2Profile C p).map fun d =>
          (⟨some (Creds.stored d), some (jstr "profile"), some (jstr "oauth2")⟩ : Resolution)
      else Except.ok
        (⟨some (Creds.stored p), some (jstr "profile"), some (jstr "oauth1")⟩ : Resolution)) = _
    rw [if_neg hne]
  · intro h p d hp hty hdec
    unfold resolveCredentials getEnvCredentials
    rw [if_neg h]
    show (match getProfile cfg name with
      | some p =>
        if effAuthType p = jstr "oauth2" then
          (decryptOAuth2Profile C p).map fun d =>
            (⟨some (Creds.stored d), some (jstr "profile"), some (jstr "oauth2")⟩ : Resolution)
        else Except.ok
          (⟨some (Creds.stored p), some (jstr "profile"), some (jstr "oauth1")⟩ : Resolution)
      | none => Except.ok (⟨none, none, none⟩ : Resolution)) = _
    rw [hp]
    show (if effAuthType p = jstr "oauth2" then
        (decryptOAuth2Profile C p).map fun d =>
          (⟨some (Creds.stored d), some (jstr "profile"), some (jstr "oauth2")⟩ : Resolution)
      else Except.ok
        (⟨some (Creds.stored p), some (jstr "profile"), some (jstr "oauth1")⟩ : Resolution)) = _
    rw [if_pos hty, hdec]
    rfl

/-- C1 witness: with all 5 env vars set the resolver returns the env
record with source "environment" even though a legacy profile is stored;
with 2 of 5 set it returns the stored profile with source "profile". -/
theorem c1_resolveCredentials_precedence_witness :
    resolveCredentials idCipher wEnvAll wConfig (jstr "default") =
      .ok ⟨some (.fromEnv ⟨some (jstr "ck"), some (jstr "cs"), some (jstr "tk"),
          some (jstr "ts"), some (jstr "rlm")⟩),
        some (jstr "environment"), some (jstr "oauth1")⟩
    ∧ resolveCredentials idCipher wEnvTwo wConfig (jstr "default") =
      .ok ⟨some (.stored wLegacyProfile), some (jstr "profile"), some (jstr "oauth1")⟩ :=
  ⟨(c1_resolveCredentials_precedence idCipher wEnvAll wConfig (jstr "default")).1 (by decide),
   (c1_resolveCredentials_precedence idCipher wEnvTwo wConfig (jstr "default")).2.1 (by decide)
     wLegacyProfile (by decide) (by decide)⟩

/-- C2 counterexample: at tokenExpiry exactly 5 minutes after now
(now = 0, tokenExpiry = 300000) the code returns true, while the claim
predicate (no access token, or no expiry, or expiry less than 5 minutes
after now) is false, so the stated iff fails. -/
theorem c2_isTokenExpired_boundary_counterexample :
    ¬ (isTokenExpired 0 { accessToken? := some (jstr "x"), tokenExpiry? := some 300000 } = true
      ↔ ((some (jstr "x") : Option Bytes) = none
        ∨ (some (300000 : Int) : Option Int) = none
        ∨ (300000 : Int) - 0 < 300000)) := by
  decide

/-- C2 (amended): isTokenExpired is true iff the access token is absent
or empty, the expiry is absent or zero, or the expiry is at most
5 minutes after the current time (the buffer comparison is inclusive);
in particular it is true at now+2min and false at now+10min. -/
theorem c2_isTokenExpired_spec (now : Int) (p : Profile) (hnow : 0 ≤ now) :
    (isTokenExpired now p = true ↔
      (truthyS p.accessToken? = false ∨ falsyExpiry p.tokenExpiry? = true ∨
        ∃ e, p.tokenExpiry? = some e ∧ e ≤ now + TOKEN_EXPIRY_BUFFER_MS))
    ∧ isTokenExpired now
        { accessToken? := some (jstr "x"), tokenExpiry? := some (now + 120000) } = true
    ∧ isTokenExpired now
        { accessToken? := some (jstr "x"), tokenExpiry? := some (now + 600000) } = false := by
  have hx : truthyS (some (jstr "x")) = true := by decide
  refine ⟨?_, ?_, ?_⟩
  · constructor
    · intro hlhs
      unfold isTokenExpired at hlhs
      by_cases h1 : (falsyExpiry p.tokenExpiry? || !truthyS p.accessToken?) = true
      · rcases Bool.or_eq_true_iff.mp h1 with hb | hb
        · exact Or.inr (Or.inl hb)
        · exact Or.inl (by revert hb; cases truthyS p.accessToken? <;> simp)
      · rw [if_neg h1] at hlhs
        rcases hp : p.tokenExpiry? with _ | e
        · exact Or.inr (Or.inl (by simp [falsyExpiry, hp]))
        · refine Or.inr (Or.inr ⟨e, rfl, ?_⟩)
          rw [hp] at hlhs
          simp only [Option.getD_some, decide_eq_true_eq, TOKEN_EXPIRY_BUFFER_MS] at hlhs
          simp only [TOKEN_EXPIRY_BUFFER_MS]
          omega
    · intro hrhs
      unfold isTokenExpired
      by_cases h1 : (falsyExpiry p.tokenExpiry? || !truthyS p.accessToken?) = true
      · rw [if_pos h1]
      · rw [if_neg h1]
        have h2 : falsyExpiry p.tokenExpiry? = false ∧ truthyS p.accessToken? = true := by
          revert h1
          cases falsyExpiry p.tokenExpiry? <;> cases truthyS p.accessToken? <;> simp
        rcases hrhs with h | h | ⟨e, he, hle⟩
        · simp [h2.2] at h
        · simp [h2.1] at h
        · rw [he]
          simp only [TOKEN_EXPIRY_BUFFER_MS] at hle
          simp only [Option.getD_some, decide_eq_true_eq, TOKEN_EXPIRY_BUFFER_MS]
          omega
  · have hfe : falsyExpiry (some (now + 120000)) = false := by
      simp only [falsyExpiry, beq_eq_false_iff_ne, ne_eq]
      omega
    show (if falsyExpiry (some (now + 120000)) || !truthyS (some (jstr "x")) then true
      else decide (now ≥ (some (now + 120000)).getD 0 - TOKEN_EXPIRY_BUFFER_MS)) = true
    rw [hfe, hx]
    show decide (now ≥ (some (now + 120000)).getD 0 - TOKEN_EXPIRY_BUFFER_MS) = true
    simp only [Option.getD_some, decide_eq_true_eq, TOKEN_EXPIRY_BUFFER_MS]
    omega
  · have hfe : falsyExpiry (some (now + 600000)) = false := by
      simp only [falsyExpiry, beq_eq_false_iff_ne, ne_eq]
      omega
    show (if falsyExpiry (some (now + 600000)) || !truthyS (some (jstr "x")) then true
      else decide (now ≥ (some (now + 600000)).getD 0 - TOKEN_EXPIRY_BUFFER_MS)) = false
    rw [hfe, hx]
    show decide (now ≥ (some (now + 600000)).getD 0 - TOKEN_EXPIRY_BUFFER_MS) = false
    simp only [Option.getD_some, decide_eq_false_iff_not, TOKEN_EXPIRY_BUFFER_MS]
    omega

/-- C2 witness: the amended statement instantiated at now = 0 and a
profile with expiry 10 minutes ahead. -/
theorem c2_isTokenExpired_spec_witness :
    isTokenExpired 0 { accessToken? := some (jstr "x"), tokenExpiry? := some 120000 } = true
    ∧ isTokenExpired 0 { accessToken? := some (jstr "x"), tokenExpiry? := some 600000 } = false := by
  have h := c2_isTokenExpired_spec 0
    { accessToken? := some (jstr "x"), tokenExpiry? := some 600000 } (by omega)
  exact ⟨h.2.1, h.2.2⟩

/-- C3: decrypt inverts encrypt on every non-empty plaintext under the
same machine-local key; the output has the ivHex:cipherHex form with the
16-byte IV generated for that call, and two encryptions with distinct IVs
yield distinct outputs. -/
theorem c3_encrypt_decrypt_roundtrip (C : BlockCipher) (iv iv2 s : Bytes)
    (hlen : iv.length = 16) (hiv : Wf iv) (hlen2 : iv2.length = 16) (hiv2 : Wf iv2)
    (hs : Wf s) (hne : s ≠ []) :
    decryptJS C (encryptJS C iv (some s)) = .ok (some s)
    ∧ encryptJS C iv (some s)
        = some (hexEncode iv ++ colon :: hexEncode (cbcEncrypt C iv s))
    ∧ (iv ≠ iv2 → encryptJS C iv (some s) ≠ encryptJS C iv2 (some s)) := by
  have henc : encryptJS C iv (some s) = some (encryptBytes C iv s) := by
    show (if s = [] then some s else some (encryptBytes C iv s)) = some (encryptBytes C iv s)
    rw [if_neg hne]
  have henc2 : encryptJS C iv2 (some s) = some (encryptBytes C iv2 s) := by
    show (if s = [] then some s else some (encryptBytes C iv2 s)) = some (encryptBytes C iv2 s)
    rw [if_neg hne]
  refine ⟨?_, ?_, ?_⟩
  · rw [henc]
    exact decryptJS_encryptBytes C hlen hiv hs
  · rw [henc]
    rfl
  · intro hivne heq
    rw [henc, henc2] at heq
    exact hivne (encryptBytes_iv_inj C hiv hiv2 (Option.some_inj.mp heq))

/-- C3 witness: the round trip and IV-distinctness at a concrete cipher,
two concrete IVs and the one-byte plaintext "a". -/
theorem c3_encrypt_decrypt_roundtrip_witness :
    decryptJS idCipher (encryptJS idCipher wIv (some [97])) = .ok (some [97])
    ∧ encryptJS idCipher wIv (some [97]) ≠ encryptJS idCipher wIv2 (some [97]) := by
  have h := c3_encrypt_decrypt_roundtrip idCipher wIv wIv2 [97]
    (by decide) (by decide) (by decide) (by decide) (by decide) (by decide)
  exact ⟨h.1, h.2.2 (by decide)⟩

/-- C4: a callback-path request with code=abc and state=xyz is answered
200, closes the server and resolves with exactly that code and state; an
error=access_denied request is answered 200, closes and rejects with a
denial message mentioning access_denied; a callback-path request with
neither is answered 400, closes and rejects with the no-authorization-code
message; a request to any other path is answered 404 and keeps listening. -/
theorem c4_callback_state_machine (cd st er : Option Bytes) (p : Bytes) :
    handleCallbackRequest ⟨CALLBACK_PATH, some (jstr "abc"), some (jstr "xyz"), none⟩
      = (200, .closed (.resolved (jstr "abc") (some (jstr "xyz"))))
    ∧ handleCallbackRequest ⟨CALLBACK_PATH, cd, st, some (jstr "access_denied")⟩
      = (200, .closed (.rejectedDenied
          (jstr "Authorization denied: " ++ jstr "access_denied")))
    ∧ handleCallbackRequest ⟨CALLBACK_PATH, none, st, none⟩
      = (400, .closed (.rejectedNoCode (jstr "No authorization code received in callback")))
    ∧ (p ≠ CALLBACK_PATH →
        handleCallbackRequest ⟨p, cd, st, er⟩ = (404, .keepListening)) := by
  refine ⟨by decide, ?_, ?_, ?_⟩
  · simp only [handleCallbackRequest]
    rw [if_neg (by simp), if_pos (by decide)]
    rfl
  · simp only [handleCallbackRequest]
    rw [if_neg (by simp)]
    rfl
  · intro hp
    simp only [handleCallbackRequest]
    rw [if_pos hp]

/-- C4 witness: the path conjunct instantiated at the path /other with no
query parameters, together with the concrete success resolution. -/
theorem c4_callback_state_machine_witness :
    handleCallbackRequest ⟨jstr "/other", none, none, none⟩ = (404, .keepListening)
    ∧ handleCallbackRequest ⟨CALLBACK_PATH, some (jstr "abc"), some (jstr "xyz"), none⟩
      = (200, .closed (.resolved (jstr "abc") (some (jstr "xyz")))) := by
  have h := c4_callback_state_machine none none none (jstr "/other")
  exact ⟨h.2.2.2 (by decide), h.1⟩

/-- C5: contrary to the spec, a failing browser-open step is fatal —
login awaits open(authUrl) with no try/catch, so when that step fails the
flow returns the browser-open error even though the callback listener
would have delivered a usable result; the callback is never awaited. -/
theorem c5_login_open_failure_is_fatal :
    loginFlow
      ⟨.error (jstr "browser-open failed"),
       .ok (jstr "abc", some (jstr "s")),
       .ok ⟨some (jstr "at"), some (jstr "rt"), 3600, some (jstr "Bearer")⟩⟩
      (jstr "s") 0
      = .error (jstr "browser-open failed") := rfl

/-- C6: encrypt and decrypt pass through null/undefined and the empty
string unchanged without raising, and decrypt returns any string with no
colon separator unchanged (treated as not encrypted). -/
theorem c6_passthrough (C : BlockCipher) (iv s : Bytes) (hnc : colon ∉ s) :
    encryptJS C iv none = none
    ∧ encryptJS C iv (some []) = some []
    ∧ decryptJS C none = .ok none
    ∧ decryptJS C (some []) = .ok (some [])
    ∧ decryptJS C (some s) = .ok (some s) := by
  refine ⟨rfl, rfl, rfl, rfl, ?_⟩
  show (if s = [] ∨ colon ∉ s then Except.ok (some s)
    else Except.map some (decryptBody C s)) = Except.ok (some s)
  rw [if_pos (Or.inr hnc)]

/-- C6 witness: decrypt of the colon-free string "plain" is a passthrough. -/
theorem c6_passthrough_witness :
    decryptJS idCipher (some (jstr "plain")) = .ok (some (jstr "plain")) :=
  (c6_passthrough idCipher wIv (jstr "plain") (by decide)).2.2.2.2

/-- C7: buildAuthorizationUrl returns a URL whose host is the account ID
lower-cased with underscores replaced by hyphens (so 1234567_SB1 yields
host 1234567-sb1) and whose query parameters are exactly
response_type=code, client_id, redirect_uri, scope (fixed constant),
state, code_challenge and code_challenge_method=S256; getTokenEndpoint
applies the same normalization, and the normalized host part never
contains an underscore or an upper-case ASCII letter. -/
theorem c7_host_normalization (a cid r st ch : Bytes) :
    buildAuthorizationUrl a cid r st ch
      = jstr "https://" ++ normalizeAccountId a
        ++ jstr ".app.netsuite.com/app/login/oauth2/authorize.nl"
        ++ 63 :: formEncodePairs
          [(jstr "response_type", jstr "code"),
           (jstr "client_id", cid),
           (jstr "redirect_uri", r),
           (jstr "scope", SCOPE),
           (jstr "state", st),
           (jstr "code_challenge", ch),
           (jstr "code_challenge_method", jstr "S256")]
    ∧ getTokenEndpoint a
      = jstr "https://" ++ normalizeAccountId a
        ++ jstr ".suitetalk.api.netsuite.com/services/rest/auth/oauth2/v1/token"
    ∧ normalizeAccountId (jstr "1234567_SB1") = jstr "1234567-sb1"
    ∧ (∀ c ∈ normalizeAccountId a, c ≠ 95 ∧ ¬(65 ≤ c ∧ c ≤ 90)) := by
  refine ⟨rfl, rfl, by decide, ?_⟩
  intro c hc
  unfold normalizeAccountId at hc
  simp only [List.map_map, List.mem_map, Function.comp] at hc
  rcases hc with ⟨x, _, hx⟩
  subst hx
  split_ifs <;> omega

/-- C7 witness: the underscore/upper-case-free property applied at the
hyphen character of the normalized concrete account ID 1234567_SB1. -/
theorem c7_host_normalization_witness :
    normalizeAccountId (jstr "1234567_SB1") = jstr "1234567-sb1"
    ∧ ((45 : Nat) ≠ 95 ∧ ¬(65 ≤ (45 : Nat) ∧ (45 : Nat) ≤ 90)) :=
  ⟨(c7_host_normalization (jstr "1234567_SB1") [] [] [] []).2.2.1,
   (c7_host_normalization (jstr "1234567_SB1") [] [] [] []).2.2.2 45 (by decide)⟩

/-- C8: saveOAuth2Tokens on an existing profile stores accessToken as
given (plaintext), stores refreshToken as an iv:cipher string distinct
from the plaintext that decrypts back to it, sets tokenExpiry as given;
on a missing profile it throws the Profile-not-found error. -/
theorem c8_saveOAuth2Tokens_persistence (C : BlockCipher) (iv : Bytes) (cfg : Config)
    (name : Bytes) (tk : TokensIn) (rt : Bytes)
    (hlen : iv.length = 16) (hiv : Wf iv)
    (hrt : tk.refreshToken? = some rt) (hrtne : rt ≠ []) (hrtwf : Wf rt) :
    (∀ p, getProfile cfg name = some p →
      ∃ cfg2, saveOAuth2Tokens C iv cfg name tk = .ok cfg2
        ∧ ∃ p2, getProfile cfg2 name = some p2
          ∧ p2.accessToken? = tk.accessToken?
          ∧ p2.tokenExpiry? = tk.tokenExpiry?
          ∧ p2.refreshToken? = some (encryptBytes C iv rt)
          ∧ encryptBytes C iv rt ≠ rt
          ∧ encryptBytes C iv rt
              = hexEncode iv ++ colon :: hexEncode (cbcEncrypt C iv rt)
          ∧ decryptJS C (some (encryptBytes C iv rt)) = .ok (some rt))
    ∧ (getProfile cfg name = none →
      saveOAuth2Tokens C iv cfg name tk =
        .error (jstr "Profile " ++ squote :: name ++ squote :: jstr " not found")) := by
  constructor
  · intro p hp
    have hsave : saveOAuth2Tokens C iv cfg name tk = .ok (updateProfile cfg name fun q =>
        { q with
          accessToken? := tk.accessToken?
          refreshToken? := encryptJS C iv tk.refreshToken?
          tokenExpiry? := tk.tokenExpiry? }) := by
      unfold saveOAuth2Tokens
      rw [hp]
    refine ⟨_, hsave, ?_⟩
    refine ⟨_, getProfile_updateProfile _ hp, rfl, rfl, ?_, ?_, rfl, ?_⟩
    · show encryptJS C iv tk.refreshToken? = some (encryptBytes C iv rt)
      rw [hrt]
      show (if rt = [] then some rt else some (encryptBytes C iv rt))
        = some (encryptBytes C iv rt)
      rw [if_neg hrtne]
    · exact encryptBytes_ne_plaintext C hlen hiv hrtwf
    · exact decryptJS_encryptBytes C hlen hiv hrtwf
  · intro hp
    unfold saveOAuth2Tokens
    rw [hp]

/-- C8 witness: saving concrete tokens into the stored oauth2 profile
named prod persists the plaintext access token. -/
theorem c8_saveOAuth2Tokens_persistence_witness :
    ∃ cfg2, saveOAuth2Tokens idCipher wIv wConfig2 (jstr "prod") wTokens = .ok cfg2
      ∧ ∃ p2, getProfile cfg2 (jstr "prod") = some p2
        ∧ p2.accessToken? = some (jstr "at") := by
  obtain ⟨cfg2, h1, p2, h2, h3, _⟩ :=
    (c8_saveOAuth2Tokens_persistence idCipher wIv wConfig2 (jstr "prod") wTokens (jstr "rt")
      (by decide) (by decide) (by decide) (by decide) (by decide)).1
      wOAuth2Profile (by decide)
  exact ⟨cfg2, h1, p2, h2, h3⟩

/-- C9: generatePKCE returns a verifier of length between 43 and 128
drawn from the provided random bytes, and a challenge equal to the
unpadded URL-safe base64 encoding of the SHA-256 digest of that same
verifier; neither contains the padding character =. -/
theorem c9_generatePKCE_contract (rand : Bytes) (dig : Bytes → Bytes)
    (hlen : rand.length = 32) :
    43 ≤ (generatePKCE rand dig).1.length
    ∧ (generatePKCE rand dig).1.length ≤ 128
    ∧ (generatePKCE rand dig).2 = base64urlEncode (dig (generatePKCE rand dig).1)
    ∧ 61 ∉ (generatePKCE rand dig).2
    ∧ 61 ∉ (generatePKCE rand dig).1 := by
  have hv : (generatePKCE rand dig).1 = (base64urlEncode rand).take 64 := rfl
  have hb : (base64urlEncode rand).length = 43 := by
    rw [base64urlEncode_length, hlen]
  have hvlen : (generatePKCE rand dig).1.length = 43 := by
    rw [hv, List.length_take, hb]
    omega
  refine ⟨by omega, by omega, rfl, base64urlEncode_no_61 _, ?_⟩
  intro hmem
  exact base64urlEncode_no_61 rand (List.take_subset _ _ (hv ▸ hmem))

/-- C9 witness: the contract instantiated with 32 zero random bytes and a
digest function returning 32 zero bytes. -/
theorem c9_generatePKCE_contract_witness :
    43 ≤ (generatePKCE (List.replicate 32 0) fun _ => List.replicate 32 0).1.length
    ∧ (generatePKCE (List.replicate 32 0) fun _ => List.replicate 32 0).1.length ≤ 128 := by
  have h := c9_generatePKCE_contract (List.replicate 32 0)
    (fun _ => List.replicate 32 0) (by decide)
  exact ⟨h.1, h.2.1⟩

/-- C10: the decrypt passthrough applies only to strings with no colon;
any string containing a colon goes through real decryption using the text
before the first colon as the hex IV, and decrypt raises when that prefix
does not decode to a 16-byte IV (as for the never-encrypted "ab:cd"). -/
theorem c10_decrypt_colon_attempts_decryption (C : BlockCipher) (s : Bytes)
    (hmem : colon ∈ s)
    (hiv : (hexDecodeNode (s.takeWhile (· ≠ colon))).length ≠ 16) :
    decryptJS C (some s) = .error (jstr "Invalid initialization vector")
    ∧ decryptJS C (some s) ≠ .ok (some s) := by
  have hne : s ≠ [] := by
    intro h
    rw [h] at hmem
    simp at hmem
  have h1 : decryptJS C (some s) = (decryptBody C s).map some := by
    show (if s = [] ∨ colon ∉ s then Except.ok (some s)
      else Except.map some (decryptBody C s)) = _
    rw [if_neg (by push_neg; exact ⟨hne, hmem⟩)]
  have h2 : decryptBody C s = .error (jstr "Invalid initialization vector") := by
    simp only [decryptBody]
    rw [if_pos hiv]
  rw [h1, h2]
  exact ⟨rfl, by intro h; cases h⟩

/-- C10 witness: decrypting the never-encrypted plaintext ab:cd (which
contains a colon whose prefix ab is a 1-byte hex IV) raises instead of
passing the value through. -/
theorem c10_decrypt_colon_attempts_decryption_witness :
    decryptJS idCipher (some (jstr "ab:cd")) = .error (jstr "Invalid initialization vector")
    ∧ decryptJS idCipher (some (jstr "ab:cd")) ≠ .ok (some (jstr "ab:cd")) := by
  have h := c10_decrypt_colon_attempts_decryption idCipher (jstr "ab:cd")
    (by decide) (by decide)
  exact ⟨h.1, h.2⟩

end NsqlCli
